import Mathlib

/-!
Verification development for the `deff` side-by-side diff review tool.

Rust strings are modeled as their UTF-8 byte sequences (`List ℕ`): a Rust
`String` is by definition a UTF-8 byte buffer, and every character the
program inspects individually (`'\n'`, `'\r'`, `'\t'`, digits, `'@'`, `','`,
`' '`, `'+'`) is ASCII, so byte-level operations coincide with the source's
char-level operations on valid UTF-8 input.  `u64` arithmetic is modeled as
`ℕ` with explicit reduction modulo `2 ^ 64` where the source wraps, and
`usize` arithmetic as `ℕ` with truncated subtraction matching
`saturating_sub`.  Hash sets of `usize` are modeled as `Finset ℕ`.
-/

/-- UTF-8 byte sequence of a Rust `String`. -/
abbrev RStr := List ℕ

/-- Bytes of an ASCII string literal (all example strings used here are ASCII,
so the code points are the bytes). -/
def bytesOfAscii (s : String) : RStr :=
  s.data.map Char.toNat

/-! ## Layout engine (`src/render.rs`) -/

def HEADER_LINE_COUNT : ℕ := 4
def FOOTER_LINE_COUNT : ℕ := 2
def FRAME_DIVIDER_LINE_COUNT : ℕ := 2
def MIN_BODY_LINE_COUNT : ℕ := 3
def PANE_SEPARATOR : RStr := bytesOfAscii " | "

/-- `FrameLayout` from `src/render.rs`. -/
structure FrameLayout where
  columns : ℕ
  body_line_count : ℕ
  separator : RStr
  left_pane_width : ℕ
  right_pane_width : ℕ
  left_content_width : ℕ
  right_content_width : ℕ
  line_number_width : ℕ
  body_start_row : ℕ
  body_end_row : ℕ
  left_pane_start_column : ℕ
  left_pane_end_column : ℕ
  right_pane_start_column : ℕ
  right_pane_end_column : ℕ
  deriving DecidableEq, Repr

/-- Number of decimal digits of `n` as printed by Rust's `to_string` :
`max_lines.to_string().len()`. -/
def decimalDigitCount (n : ℕ) : ℕ :=
  (Nat.toDigits 10 n).length

/-- `get_body_line_count` from `src/render.rs`. -/
def get_body_line_count (rows : ℕ) : ℕ :=
  max (rows - (HEADER_LINE_COUNT + FOOTER_LINE_COUNT + FRAME_DIVIDER_LINE_COUNT))
    MIN_BODY_LINE_COUNT

/-- `create_frame_layout` from `src/render.rs`.  `u16` inputs are widened to
`usize` by the source, so plain `ℕ` is exact. -/
def create_frame_layout (columns rows max_lines : ℕ) : FrameLayout :=
  let body_line_count := get_body_line_count rows
  let available_pane_width := max (columns - PANE_SEPARATOR.length) 2
  let left_pane_width := max (available_pane_width / 2) 1
  let right_pane_width := max (available_pane_width - left_pane_width) 1
  let line_number_width := max (decimalDigitCount max_lines) 3
  let left_content_width := left_pane_width - (line_number_width + 1)
  let right_content_width := right_pane_width - (line_number_width + 1)
  let body_start_row := HEADER_LINE_COUNT + 1
  let body_end_row := body_start_row + (body_line_count - 1)
  let left_pane_start_column := 0
  let left_pane_end_column := left_pane_width - 1
  let right_pane_start_column := left_pane_width + PANE_SEPARATOR.length
  let right_pane_end_column := right_pane_start_column + (right_pane_width - 1)
  { columns := columns
    body_line_count := body_line_count
    separator := PANE_SEPARATOR
    left_pane_width := left_pane_width
    right_pane_width := right_pane_width
    left_content_width := left_content_width
    right_content_width := right_content_width
    line_number_width := line_number_width
    body_start_row := body_start_row
    body_end_row := body_end_row
    left_pane_start_column := left_pane_start_column
    left_pane_end_column := left_pane_end_column
    right_pane_start_column := right_pane_start_column
    right_pane_end_column := right_pane_end_column }

/-- `get_max_pane_offset` from `src/render.rs`. -/
def get_max_pane_offset (max_content_length content_width : ℕ) : ℕ :=
  if content_width = 0 then 0 else max_content_length - content_width

/-- Modelled from the spec: the spec's clamp formula
`maxPaneOffset = max(0, maxContentWidth − contentWidth)`, read over the
integers as written. -/
def specMaxPaneOffset (maxContentWidth contentWidth : ℕ) : ℤ :=
  max 0 ((maxContentWidth : ℤ) - (contentWidth : ℤ))

theorem layout_pane_widths (columns rows max_lines : ℕ) :
    (create_frame_layout columns rows max_lines).left_pane_width
      = max (columns - PANE_SEPARATOR.length) 2 / 2
    ∧ (create_frame_layout columns rows max_lines).right_pane_width
      = max (columns - PANE_SEPARATOR.length) 2
          - max (columns - PANE_SEPARATOR.length) 2 / 2 := by
  have hav : 2 ≤ max (columns - PANE_SEPARATOR.length) 2 := le_max_right _ _
  have hdiv := Nat.div_add_mod (max (columns - PANE_SEPARATOR.length) 2) 2
  have hmod : (max (columns - PANE_SEPARATOR.length) 2) % 2 < 2 :=
    Nat.mod_lt _ (by norm_num)
  constructor
  · show max (max (columns - PANE_SEPARATOR.length) 2 / 2) 1 = _
    omega
  · show max (max (columns - PANE_SEPARATOR.length) 2
        - max (max (columns - PANE_SEPARATOR.length) 2 / 2) 1) 1 = _
    omega

/-- C2 (counterexample): at `columns = 8` the available pane width is
`8 - 3 = 5`, which is odd, and the layout gives the left pane 2 columns and
the right pane 3, so the *left* pane does not receive the extra column and
`left_pane_width` is not the larger of the two. -/
theorem create_frame_layout_left_not_larger_at_8 :
    (create_frame_layout 8 24 100).left_pane_width
        ≠ (create_frame_layout 8 24 100).right_pane_width
    ∧ (create_frame_layout 8 24 100).left_pane_width
        < (create_frame_layout 8 24 100).right_pane_width := by
  decide

/-- C2 (amended): for every terminal column count, the layout splits the
clamped available pane width (`max (columns - separatorWidth) 2`) in half,
and when that width is odd the *right* pane receives the extra column: the
two pane widths always sum to the available width, differ by at most one,
and the left pane is never the larger. -/
theorem create_frame_layout_splits_width_right_tiebreak
    (columns rows max_lines : ℕ) :
    (create_frame_layout columns rows max_lines).left_pane_width
        + (create_frame_layout columns rows max_lines).right_pane_width
      = max (columns - PANE_SEPARATOR.length) 2
    ∧ (create_frame_layout columns rows max_lines).left_pane_width
        ≤ (create_frame_layout columns rows max_lines).right_pane_width
    ∧ (create_frame_layout columns rows max_lines).right_pane_width
        ≤ (create_frame_layout columns rows max_lines).left_pane_width + 1 := by
  obtain ⟨hl, hr⟩ := layout_pane_widths columns rows max_lines
  rw [hl, hr]
  have hdiv := Nat.div_add_mod (max (columns - PANE_SEPARATOR.length) 2) 2
  have hmod : (max (columns - PANE_SEPARATOR.length) 2) % 2 < 2 :=
    Nat.mod_lt _ (by norm_num)
  have hav : 2 ≤ max (columns - PANE_SEPARATOR.length) 2 := le_max_right _ _
  omega

/-- C7: for every terminal width of at least 5 columns (the minimum at which
both panes can be at least one column wide beside the 3-column separator),
`left_pane_width + separatorWidth + right_pane_width = columns`. -/
theorem create_frame_layout_width_partition
    (columns rows max_lines : ℕ) (h : 5 ≤ columns) :
    (create_frame_layout columns rows max_lines).left_pane_width
        + PANE_SEPARATOR.length
        + (create_frame_layout columns rows max_lines).right_pane_width
      = columns := by
  obtain ⟨hl, hr⟩ := layout_pane_widths columns rows max_lines
  rw [hl, hr]
  have hsep : PANE_SEPARATOR.length = 3 := rfl
  have hdiv := Nat.div_add_mod (max (columns - PANE_SEPARATOR.length) 2) 2
  have hav : max (columns - PANE_SEPARATOR.length) 2 = columns - 3 := by
    rw [hsep]; omega
  omega

/-- C7 (witness): the width partition at a concrete 80-column terminal. -/
theorem create_frame_layout_width_partition_witness :
    5 ≤ 80
    ∧ (create_frame_layout 80 24 10).left_pane_width
        + PANE_SEPARATOR.length
        + (create_frame_layout 80 24 10).right_pane_width
      = 80 :=
  ⟨by decide, create_frame_layout_width_partition 80 24 10 (by decide)⟩

/-! ## Data model (`src/model.rs`) -/

/-- `FileContentSource` from `src/model.rs`. -/
inductive FileContentSource where
  | commit
  | workingTree
  | missing
  deriving DecidableEq, Repr

/-- `DiffFileDescriptor` from `src/model.rs`. -/
structure DiffFileDescriptor where
  raw_status : RStr
  display_path : RStr
  base_path : Option RStr
  head_path : Option RStr
  base_source : FileContentSource
  head_source : FileContentSource
  deriving DecidableEq, Repr

/-- `DiffFileView` from `src/model.rs`.  Line-index hash sets are `Finset ℕ`. -/
structure DiffFileView where
  descriptor : DiffFileDescriptor
  review_key : RStr
  left_lines : List RStr
  right_lines : List RStr
  left_language : Option RStr
  right_language : Option RStr
  left_deleted_line_indexes : Finset ℕ
  right_added_line_indexes : Finset ℕ
  left_max_content_length : ℕ
  right_max_content_length : ℕ
  deriving DecidableEq

/-- `PaneOffsets` from `src/model.rs`. -/
structure PaneOffsets where
  left : ℕ
  right : ℕ
  deriving DecidableEq, Repr

instance : Inhabited PaneOffsets := ⟨⟨0, 0⟩⟩

/-- `get_max_pane_offsets` from `src/render.rs`. -/
def get_max_pane_offsets (file : DiffFileView) (layout : FrameLayout) :
    PaneOffsets :=
  { left := get_max_pane_offset file.left_max_content_length
      layout.left_content_width
    right := get_max_pane_offset file.right_max_content_length
      layout.right_content_width }

/-- A modified-file descriptor used as a concrete fixture, mirroring the unit
tests of the repository. -/
def sampleDescriptor : DiffFileDescriptor :=
  { raw_status := bytesOfAscii "M"
    display_path := bytesOfAscii "src/main.rs"
    base_path := some (bytesOfAscii "src/main.rs")
    head_path := some (bytesOfAscii "src/main.rs")
    base_source := .commit
    head_source := .commit }

/-- Fixture: a file whose longest normalized left line is 5 columns wide. -/
def fileWithLeftWidth5 : DiffFileView :=
  { descriptor := sampleDescriptor
    review_key := []
    left_lines := [bytesOfAscii "hello"]
    right_lines := [bytesOfAscii "hello"]
    left_language := none
    right_language := none
    left_deleted_line_indexes := ∅
    right_added_line_indexes := ∅
    left_max_content_length := 5
    right_max_content_length := 5 }

/-- Fixture: a file whose longest normalized left line is 50 columns wide. -/
def fileWithLeftWidth50 : DiffFileView :=
  { fileWithLeftWidth5 with left_max_content_length := 50 }

/-- C3 (counterexample): at a 10-column terminal the left content width is 0,
and for a file whose longest left line is 5 columns wide the code clamps the
maximum left pane offset to 0, while the spec formula
`max(0, maxContentWidth − contentWidth)` gives 5 — so the formula does not
hold when the content width is 0. -/
theorem get_max_pane_offset_ne_spec_at_zero_width :
    ((get_max_pane_offsets fileWithLeftWidth5
        (create_frame_layout 10 24 100)).left : ℤ)
      ≠ specMaxPaneOffset fileWithLeftWidth5.left_max_content_length
          (create_frame_layout 10 24 100).left_content_width := by
  decide

/-- C3 (amended): for every file and layout, each pane's maximum horizontal
offset equals `max(0, maxContentWidth − contentWidth)` whenever that pane's
content width is positive, and is 0 when the content width is 0. -/
theorem get_max_pane_offsets_clamp
    (file : DiffFileView) (layout : FrameLayout) :
    (0 < layout.left_content_width →
      ((get_max_pane_offsets file layout).left : ℤ)
        = specMaxPaneOffset file.left_max_content_length
            layout.left_content_width)
    ∧ (layout.left_content_width = 0 →
        (get_max_pane_offsets file layout).left = 0)
    ∧ (0 < layout.right_content_width →
      ((get_max_pane_offsets file layout).right : ℤ)
        = specMaxPaneOffset file.right_max_content_length
            layout.right_content_width)
    ∧ (layout.right_content_width = 0 →
        (get_max_pane_offsets file layout).right = 0) := by
  have key : ∀ m c : ℕ, (0 < c →
        ((get_max_pane_offset m c : ℤ) = specMaxPaneOffset m c))
      ∧ (c = 0 → get_max_pane_offset m c = 0) := by
    intro m c
    constructor
    · intro hc
      rw [get_max_pane_offset, if_neg (Nat.pos_iff_ne_zero.mp hc),
        specMaxPaneOffset]
      rcases le_total m c with hmc | hcm
      · rw [Nat.sub_eq_zero_of_le hmc, max_eq_left (by omega)]
        norm_num
      · rw [Int.ofNat_sub hcm, max_eq_right (by omega)]
    · intro hc
      rw [get_max_pane_offset, if_pos hc]
  exact ⟨(key _ _).1, (key _ _).2, (key _ _).1, (key _ _).2⟩

/-- C3 (witness): the clamp formula evaluated at an 80-column terminal, where
the left content width is 34, for a file whose longest left line is 50
columns wide: the maximum left offset is `max(0, 50 − 34) = 16`. -/
theorem get_max_pane_offsets_clamp_witness :
    0 < (create_frame_layout 80 24 10).left_content_width
    ∧ ((get_max_pane_offsets fileWithLeftWidth50
          (create_frame_layout 80 24 10)).left : ℤ)
        = specMaxPaneOffset fileWithLeftWidth50.left_max_content_length
            (create_frame_layout 80 24 10).left_content_width :=
  ⟨by decide,
    (get_max_pane_offsets_clamp fileWithLeftWidth50
      (create_frame_layout 80 24 10)).1 (by decide)⟩

/-! ## Review fingerprint (`src/review.rs`)

The stable hasher is 64-bit FNV-1a: per byte, `state ^= byte` then
`state = state.wrapping_mul(FNV_PRIME)`; the wrap is the explicit
`% 2 ^ 64`. -/

def U64 : ℕ := 2 ^ 64
def FNV_OFFSET_BASIS : ℕ := 0xcbf29ce484222325
def FNV_PRIME : ℕ := 0x100000001b3

/-- One byte step of `StableHasher::write_bytes`. -/
def writeByte (state byte : ℕ) : ℕ :=
  ((state ^^^ byte) * FNV_PRIME) % U64

/-- `StableHasher::write_bytes`. -/
def writeBytes (state : ℕ) (bytes : RStr) : ℕ :=
  bytes.foldl writeByte state

/-- `StableHasher::write_str`: the string's bytes followed by a 0 terminator. -/
def writeStr (state : ℕ) (value : RStr) : ℕ :=
  writeBytes (writeBytes state value) [0]

/-- One hex digit byte of `format!("{:016x}", _)` (lowercase). -/
def hexDigitByte (n : ℕ) : ℕ :=
  if n < 10 then 48 + n else 87 + n

/-- `StableHasher::finish_hex`: the 16 lowercase hex digits of the 64-bit
state, most significant first. -/
def finishHex (state : ℕ) : RStr :=
  (List.range 16).map fun i => hexDigitByte (state / 16 ^ (15 - i) % 16)

/-- The hash state reached by `compute_review_key` just before hex
formatting, written as the source's sequence of `write_str` calls. -/
def compute_review_state (descriptor : DiffFileDescriptor)
    (left_lines right_lines : List RStr) : ℕ :=
  let s := FNV_OFFSET_BASIS
  let s := writeStr s descriptor.raw_status
  let s := writeStr s descriptor.display_path
  let s := writeStr s (descriptor.base_path.getD [])
  let s := writeStr s (descriptor.head_path.getD [])
  let s := left_lines.foldl
    (fun s line => writeStr (writeStr s (bytesOfAscii "L")) line) s
  let s := right_lines.foldl
    (fun s line => writeStr (writeStr s (bytesOfAscii "R")) line) s
  s

/-- `compute_review_key` from `src/review.rs`. -/
def compute_review_key (descriptor : DiffFileDescriptor)
    (left_lines right_lines : List RStr) : RStr :=
  finishHex (compute_review_state descriptor left_lines right_lines)

/-- The byte stream a `write_str` call feeds into the hasher. -/
def writeStrBytes (value : RStr) : RStr := value ++ [0]

/-- The byte stream of the four descriptor fields of the fingerprint. -/
def descriptorBytes (descriptor : DiffFileDescriptor) : RStr :=
  writeStrBytes descriptor.raw_status
    ++ writeStrBytes descriptor.display_path
    ++ writeStrBytes (descriptor.base_path.getD [])
    ++ writeStrBytes (descriptor.head_path.getD [])

/-- The byte stream of one pane's lines, each preceded by its side tag. -/
def linesBytes (tag : RStr) (lines : List RStr) : RStr :=
  lines.flatMap fun line => writeStrBytes tag ++ writeStrBytes line

/-- The full byte stream hashed by `compute_review_key`. -/
def reviewMessage (descriptor : DiffFileDescriptor)
    (left_lines right_lines : List RStr) : RStr :=
  descriptorBytes descriptor
    ++ linesBytes (bytesOfAscii "L") left_lines
    ++ linesBytes (bytesOfAscii "R") right_lines

theorem writeBytes_append (state : ℕ) (a b : RStr) :
    writeBytes state (a ++ b) = writeBytes (writeBytes state a) b :=
  List.foldl_append ..

theorem writeStr_eq_writeBytes (state : ℕ) (value : RStr) :
    writeStr state value = writeBytes state (writeStrBytes value) :=
  (writeBytes_append state value [0]).symm

theorem foldl_writeTagged (tag : RStr) (lines : List RStr) (state : ℕ) :
    lines.foldl (fun s line => writeStr (writeStr s tag) line) state
      = writeBytes state (linesBytes tag lines) := by
  induction lines generalizing state with
  | nil => simp [linesBytes, writeBytes]
  | cons line rest ih =>
    rw [List.foldl_cons, ih]
    simp only [linesBytes, List.flatMap_cons, writeBytes_append,
      writeStr_eq_writeBytes]

/-- The sequential hashing of `compute_review_key` hashes exactly the
concatenated `reviewMessage` byte stream. -/
theorem compute_review_state_eq_hash_message
    (descriptor : DiffFileDescriptor) (left_lines right_lines : List RStr) :
    compute_review_state descriptor left_lines right_lines
      = writeBytes FNV_OFFSET_BASIS
          (reviewMessage descriptor left_lines right_lines) := by
  show (left_lines.foldl
      (fun s line => writeStr (writeStr s (bytesOfAscii "L")) line) _
    |> right_lines.foldl
      (fun s line => writeStr (writeStr s (bytesOfAscii "R")) line)) = _
  rw [foldl_writeTagged, foldl_writeTagged]
  simp only [reviewMessage, descriptorBytes, writeStr_eq_writeBytes,
    writeBytes_append, List.append_assoc]

theorem U64_pos : 0 < U64 := by norm_num [U64]

theorem writeBytes_lt (bytes : RStr) (state : ℕ) (h : state < U64) :
    writeBytes state bytes < U64 := by
  induction bytes generalizing state with
  | nil => exact h
  | cons b rest ih =>
    exact ih _ (Nat.mod_lt _ U64_pos)

theorem compute_review_state_lt (descriptor : DiffFileDescriptor)
    (left_lines right_lines : List RStr) :
    compute_review_state descriptor left_lines right_lines < U64 := by
  rw [compute_review_state_eq_hash_message]
  exact writeBytes_lt _ _ (by norm_num [FNV_OFFSET_BASIS, U64])

theorem append_same_tail {α : Type _} {x y s : List α}
    (h : x ++ s = y ++ s) : x = y := by
  have hlen : x.length = y.length := by
    have := congrArg List.length h
    simp only [List.length_append] at this
    omega
  exact (List.append_inj h hlen).1

/-- C1 (counterexample): the fingerprint is a 64-bit digest, so it is not
injective: there exist two different single-line left contents (runs of the
byte `'A'` of different lengths) that produce the identical review key for
the same descriptor and the same (empty) right side — changing that single
line does not change the key. -/
theorem compute_review_key_collision_exists :
    ∃ n m : ℕ, List.replicate n 65 ≠ List.replicate m 65
      ∧ compute_review_key sampleDescriptor [List.replicate n 65] []
          = compute_review_key sampleDescriptor [List.replicate m 65] [] := by
  obtain ⟨n, m, hne, heq⟩ := Finite.exists_ne_map_eq_of_infinite
    (fun n : ℕ =>
      (⟨compute_review_state sampleDescriptor [List.replicate n 65] [],
        compute_review_state_lt ..⟩ : Fin U64))
  refine ⟨n, m, fun hrep => hne ?_, ?_⟩
  · have := congrArg List.length hrep
    simpa using this
  · have hstate := congrArg Fin.val heq
    simpa [compute_review_key] using congrArg finishHex hstate

/-- C1 (amended): the review key is a pure function of the descriptor and the
exact line sequences (identical inputs reproduce the identical key), and it
is the 64-bit FNV-1a digest of the `reviewMessage` byte stream; changing any
single line in `leftLines` or `rightLines` (all other fields held constant)
always changes that byte stream — so it changes the key except when the two
streams collide under the 64-bit digest, and such collisions exist. -/
theorem compute_review_key_deterministic_and_message_sensitive :
    (∀ (d d' : DiffFileDescriptor) (l l' r r' : List RStr),
        d = d' → l = l' → r = r' →
        compute_review_key d l r = compute_review_key d' l' r')
    ∧ (∀ (d : DiffFileDescriptor) (pre post : List RStr) (line line' : RStr)
          (right : List RStr), line ≠ line' →
        reviewMessage d (pre ++ line :: post) right
          ≠ reviewMessage d (pre ++ line' :: post) right)
    ∧ (∀ (d : DiffFileDescriptor) (left : List RStr) (pre post : List RStr)
          (line line' : RStr), line ≠ line' →
        reviewMessage d left (pre ++ line :: post)
          ≠ reviewMessage d left (pre ++ line' :: post))
    ∧ (∀ (d : DiffFileDescriptor) (left right : List RStr),
        compute_review_key d left right
          = finishHex (writeBytes FNV_OFFSET_BASIS
              (reviewMessage d left right))) := by
  have shapeL : ∀ (d : DiffFileDescriptor) (pre post : List RStr)
      (line : RStr) (right : List RStr),
      reviewMessage d (pre ++ line :: post) right
        = (descriptorBytes d ++ (linesBytes (bytesOfAscii "L") pre
            ++ writeStrBytes (bytesOfAscii "L")))
          ++ ((line ++ [0])
            ++ (linesBytes (bytesOfAscii "L") post
              ++ linesBytes (bytesOfAscii "R") right)) := by
    intro d pre post line right
    simp [reviewMessage, linesBytes, writeStrBytes, List.flatMap_append,
      List.flatMap_cons, List.append_assoc]
  have shapeR : ∀ (d : DiffFileDescriptor) (left : List RStr)
      (pre post : List RStr) (line : RStr),
      reviewMessage d left (pre ++ line :: post)
        = (descriptorBytes d ++ (linesBytes (bytesOfAscii "L") left
            ++ (linesBytes (bytesOfAscii "R") pre
              ++ writeStrBytes (bytesOfAscii "R"))))
          ++ ((line ++ [0]) ++ linesBytes (bytesOfAscii "R") post) := by
    intro d left pre post line
    simp [reviewMessage, linesBytes, writeStrBytes, List.flatMap_append,
      List.flatMap_cons, List.append_assoc]
  refine ⟨?_, ?_, ?_, ?_⟩
  · intro d d' l l' r r' hd hl hr
    rw [hd, hl, hr]
  · intro d pre post line line' right hne heq
    rw [shapeL, shapeL] at heq
    have h1 := List.append_cancel_left heq
    have h2 := append_same_tail h1
    exact hne (append_same_tail h2)
  · intro d left pre post line line' hne heq
    rw [shapeR, shapeR] at heq
    have h1 := List.append_cancel_left heq
    have h2 := append_same_tail h1
    exact hne (append_same_tail h2)
  · intro d left right
    rw [compute_review_key, compute_review_state_eq_hash_message]

/-- C1 (witness): changing the single left line `"a"` to `"b"` changes the
hashed byte stream for the sample descriptor. -/
theorem compute_review_key_message_sensitive_witness :
    bytesOfAscii "a" ≠ bytesOfAscii "b"
    ∧ reviewMessage sampleDescriptor [bytesOfAscii "a"] []
        ≠ reviewMessage sampleDescriptor [bytesOfAscii "b"] [] :=
  ⟨by decide,
    compute_review_key_deterministic_and_message_sensitive.2.1
      sampleDescriptor [] [] (bytesOfAscii "a") (bytesOfAscii "b") []
      (by decide)⟩

/-! ## Navigation state (`src/app.rs`)

`AppState` is modeled with the fields the verified transitions touch; the
search sub-state (input mode, query, match list) is carried by the source
struct but left untouched by `toggle_current_file_reviewed` and `move_file`.
-/

/-- The numeric navigation/review fields of `AppState` from `src/app.rs`. -/
structure AppState where
  file_index : ℕ
  scroll_offset : ℕ
  pane_offsets_by_file : List PaneOffsets
  reviewed_by_file : List Bool
  reviewed_count : ℕ
  deriving DecidableEq

/-- `AppState::toggle_current_file_reviewed`: flips the current file's flag,
adjusts the cached count with saturating arithmetic, and returns the new
flag.  Indexing is modeled with `getD`; the source indexing panics out of
bounds, so theorems assume `file_index < reviewed_by_file.length`. -/
def toggle_current_file_reviewed (app : AppState) : AppState × Bool :=
  if app.reviewed_by_file.getD app.file_index false then
    ({ app with
        reviewed_by_file := app.reviewed_by_file.set app.file_index false
        reviewed_count := app.reviewed_count - 1 }, false)
  else
    ({ app with
        reviewed_by_file := app.reviewed_by_file.set app.file_index true
        reviewed_count := app.reviewed_count + 1 }, true)

/-- `ReviewStore::set_reviewed` from `src/review.rs`, acting on the store's
set of reviewed keys (the store's file path plays no role here). -/
def set_reviewed (reviewed_hashes : Finset RStr) (review_key : RStr)
    (reviewed : Bool) : Finset RStr :=
  if reviewed then insert review_key reviewed_hashes
  else reviewed_hashes.erase review_key

/-- The `'r'` keypress wiring of `src/terminal.rs`: toggle the current file's
flag in the app state, then record the returned flag in the review store
under the current file's review key. -/
def toggle_and_record (app : AppState) (store : Finset RStr) (key : RStr) :
    AppState × Finset RStr :=
  let result := toggle_current_file_reviewed app
  (result.1, set_reviewed store key result.2)

theorem list_set_getD_self (l : List Bool) (i : ℕ) (h : i < l.length) :
    l.set i (l.getD i false) = l := by
  apply List.ext_getElem
  · simp
  · intro j hj hj'
    rw [List.getElem_set]
    split
    · subst j
      rw [List.getD_eq_getElem l false h]
    · rfl

/-- C8: from any app state whose cached count equals the number of reviewed
flags and whose store membership for the current file's key agrees with the
file's flag, toggling "reviewed" on the current file twice restores the
reviewed flags, the cached reviewed count, and the store's reviewed-key set
to their original values. -/
theorem toggle_twice_roundtrip (app : AppState) (store : Finset RStr)
    (key : RStr)
    (hidx : app.file_index < app.reviewed_by_file.length)
    (hcount : app.reviewed_count = app.reviewed_by_file.count true)
    (hkey : key ∈ store ↔ app.reviewed_by_file.getD app.file_index false = true) :
    toggle_and_record (toggle_and_record app store key).1
      (toggle_and_record app store key).2 key = (app, store) := by
  obtain ⟨fi, so, po, rf, rc⟩ := app
  simp only at hidx hcount hkey
  by_cases hflag : rf.getD fi false
  · have hcpos : 0 < rc := by
      rw [hcount, List.count_pos_iff]
      have : rf.getD fi false = rf[fi] := List.getD_eq_getElem rf false hidx
      rw [this] at hflag
      rw [← hflag]
      exact List.getElem_mem hidx
    have hset : (rf.set fi false).getD fi false = false := by
      rw [List.getD_eq_getElem _ false (by simpa using hidx)]
      exact List.getElem_set_self ..
    have hrestore : (rf.set fi false).set fi true = rf := by
      rw [List.set_set]
      have := list_set_getD_self rf fi hidx
      rwa [hflag] at this
    simp only [toggle_and_record, toggle_current_file_reviewed, hflag,
      if_true, hset, if_false, Bool.false_eq_true, set_reviewed]
    rw [hrestore, Finset.insert_erase (hkey.mpr hflag),
      Nat.sub_add_cancel hcpos]
  · have hflag' : rf.getD fi false = false := by
      simpa using hflag
    have hset : (rf.set fi true).getD fi false = true := by
      rw [List.getD_eq_getElem _ false (by simpa using hidx)]
      exact List.getElem_set_self ..
    have hrestore : (rf.set fi true).set fi false = rf := by
      rw [List.set_set]
      have := list_set_getD_self rf fi hidx
      rwa [hflag'] at this
    have hnotin : key ∉ store := fun hmem => by
      rw [hkey.mp hmem] at hflag'
      exact Bool.true_eq_false.mp hflag'
    simp only [toggle_and_record, toggle_current_file_reviewed, hflag',
      Bool.false_eq_true, if_false, hset, if_true, set_reviewed]
    rw [hrestore, Finset.erase_insert hnotin, Nat.add_sub_cancel]

/-- C8 (witness): the double toggle at a concrete consistent state: one
unreviewed file, empty store. -/
theorem toggle_twice_roundtrip_witness :
    (0 < ([false] : List Bool).length)
    ∧ toggle_and_record
        (toggle_and_record ⟨0, 0, [⟨0, 0⟩], [false], 0⟩ ∅ (bytesOfAscii "k")).1
        (toggle_and_record ⟨0, 0, [⟨0, 0⟩], [false], 0⟩ ∅ (bytesOfAscii "k")).2
        (bytesOfAscii "k")
      = (⟨0, 0, [⟨0, 0⟩], [false], 0⟩, ∅) :=
  ⟨by decide,
    toggle_twice_roundtrip ⟨0, 0, [⟨0, 0⟩], [false], 0⟩ ∅ (bytesOfAscii "k")
      (by decide) (by decide) (by simp)⟩

/-- Rust's `Ord::clamp` on `isize` for `lo ≤ hi` (here always `0 ≤ hi`). -/
def clampInt (x lo hi : ℤ) : ℤ :=
  min (max x lo) hi

/-- `move_file` from `src/app.rs`: clamp the shifted index to
`[0, fileCount-1]` (with `saturating_sub` on the length) and, on an actual
change, set the new index and reset the vertical scroll; returns whether the
index changed.  Only the file list's length enters the computation. -/
def move_file (delta : ℤ) (fileCount : ℕ) (app : AppState) :
    AppState × Bool :=
  let max_index : ℤ := ((fileCount - 1 : ℕ) : ℤ)
  let next_index : ℕ := (clampInt ((app.file_index : ℤ) + delta) 0 max_index).toNat
  if next_index ≠ app.file_index then
    ({ app with file_index := next_index, scroll_offset := 0 }, true)
  else
    (app, false)

/-- C9: changing the file by ±1 yields a file index clamped to
`[0, fileCount-1]`; whenever the index actually changes the vertical scroll
offset is reset to 0; and in every case `pane_offsets_by_file` is left
completely unchanged (hence unchanged for every file, active or not). -/
theorem move_file_clamps_resets_scroll_preserves_offsets
    (delta : ℤ) (fileCount : ℕ) (app : AppState)
    (hpos : 0 < fileCount) (hdelta : delta = 1 ∨ delta = -1) :
    (move_file delta fileCount app).1.file_index < fileCount
    ∧ ((move_file delta fileCount app).1.file_index ≠ app.file_index →
        (move_file delta fileCount app).1.scroll_offset = 0)
    ∧ (move_file delta fileCount app).1.pane_offsets_by_file
        = app.pane_offsets_by_file := by
  have hclamp : (clampInt ((app.file_index : ℤ) + delta) 0
      ((fileCount - 1 : ℕ) : ℤ)).toNat < fileCount := by
    rw [clampInt]
    have hcast : ((fileCount - 1 : ℕ) : ℤ) = (fileCount : ℤ) - 1 := by
      omega
    omega
  rw [move_file]
  split
  · exact ⟨hclamp, fun _ => rfl, rfl⟩
  · next hne =>
    refine ⟨?_, fun hch => absurd rfl hch, rfl⟩
    simp only [ne_eq, Decidable.not_not] at hne
    rw [← hne]
    exact hclamp

/-- C9 (witness): moving right from the only file of a one-file list keeps
index 0 and changes nothing. -/
theorem move_file_witness :
    0 < 1 ∧ ((1 : ℤ) = 1 ∨ (1 : ℤ) = -1)
    ∧ ((move_file 1 1 ⟨0, 7, [⟨3, 4⟩], [false], 0⟩).1.file_index < 1
      ∧ ((move_file 1 1 ⟨0, 7, [⟨3, 4⟩], [false], 0⟩).1.file_index
            ≠ (⟨0, 7, [⟨3, 4⟩], [false], 0⟩ : AppState).file_index →
          (move_file 1 1 ⟨0, 7, [⟨3, 4⟩], [false], 0⟩).1.scroll_offset = 0)
      ∧ (move_file 1 1 ⟨0, 7, [⟨3, 4⟩], [false], 0⟩).1.pane_offsets_by_file
          = (⟨0, 7, [⟨3, 4⟩], [false], 0⟩ : AppState).pane_offsets_by_file) :=
  ⟨by decide, Or.inl rfl,
    move_file_clamps_resets_scroll_preserves_offsets 1 1
      ⟨0, 7, [⟨3, 4⟩], [false], 0⟩ (by decide) (Or.inl rfl)⟩

/-- `next_match_index` from `src/app.rs`. -/
def next_match_index (match_count : ℕ) (current_match_index : Option ℕ)
    (forward : Bool) : Option ℕ :=
  if match_count = 0 then none
  else
    match current_match_index with
    | some current_index =>
        if forward then some ((current_index + 1) % match_count)
        else some ((current_index + match_count - 1) % match_count)
    | none =>
        if forward then some 0
        else some (match_count - 1)

/-- C6: for a non-empty match list of length `n` the search cursor is
cyclic — advancing from `i` yields `(i+1) % n`, retreating yields
`(i+n-1) % n`, with no cursor "next" yields 0 and "previous" yields `n-1` —
and with an empty match list both directions yield no cursor. -/
theorem next_match_index_cyclic (n i : ℕ) :
    (0 < n →
      next_match_index n (some i) true = some ((i + 1) % n)
      ∧ next_match_index n (some i) false = some ((i + n - 1) % n)
      ∧ next_match_index n none true = some 0
      ∧ next_match_index n none false = some (n - 1))
    ∧ (∀ (c : Option ℕ) (forward : Bool),
        next_match_index 0 c forward = none) := by
  constructor
  · intro hn
    have hn' : n ≠ 0 := Nat.pos_iff_ne_zero.mp hn
    refine ⟨?_, ?_, ?_, ?_⟩ <;> simp [next_match_index, hn']
  · intro c forward
    simp [next_match_index]

/-- C6 (witness): with 3 matches, advancing from the last match (index 2)
wraps to 0, and retreating from the first match (index 0) wraps to 2. -/
theorem next_match_index_cyclic_witness :
    0 < 3
    ∧ next_match_index 3 (some 2) true = some 0
    ∧ next_match_index 3 (some 0) false = some 2 := by
  refine ⟨by decide, ?_, ?_⟩
  · have h := ((next_match_index_cyclic 3 2).1 (by decide)).1
    simpa using h
  · have h := ((next_match_index_cyclic 3 0).1 (by decide)).2.1
    simpa using h

/-! ## Patch parsing and file views (`src/diff.rs`)

The hunk-header regex `^@@ -(\d+)(?:,(\d+))? \+(\d+)(?:,(\d+))? @@` is
modeled as a deterministic maximal-munch parser over bytes that returns the
captured digit runs: every token following a digit group (`,`, ` `) is a
non-digit, so the regex engine's greedy matching with backtracking accepts
exactly the strings this parser accepts.  `\d` is modeled as the ASCII
digit class (git emits ASCII hunk headers).  The captures are then parsed
separately, exactly as the source does: `str::parse::<usize>` fails
precisely when the numeral exceeds `usize::MAX = 2^64 - 1`; a failed start
parse leaves `old_start`/`new_start` as `None` via `.ok()`, skipping that
side's insertions, and a failed count parse falls back to 0 via
`unwrap_or(0)`. -/

def isDigitByte (b : ℕ) : Bool :=
  48 ≤ b && b ≤ 57

/-- Value of an ASCII digit run. -/
def digitsToNat (ds : RStr) : ℕ :=
  ds.foldl (fun acc d => acc * 10 + (d - 48)) 0

/-- Consume an expected literal byte sequence. -/
def dropLit (pat cs : RStr) : Option RStr :=
  if cs.take pat.length = pat then some (cs.drop pat.length) else none

/-- Consume a maximal non-empty ASCII digit run (`(\d+)` followed by a
non-digit in the pattern), returned uninterpreted as the regex capture. -/
def takeDigitRun (cs : RStr) : Option (RStr × RStr) :=
  let ds := cs.takeWhile isDigitByte
  if ds.isEmpty then none
  else some (ds, cs.dropWhile isDigitByte)

/-- Consume the optional `(?:,(\d+))?` group: a comma must be followed by a
digit run or the whole match fails (no later pattern token can consume the
comma). -/
def takeOptCount (cs : RStr) : Option (Option RStr × RStr) :=
  match cs with
  | 44 :: rest =>
      match takeDigitRun rest with
      | none => none
      | some (ds, r) => some (some ds, r)
  | _ => some (none, cs)

/-- The anchored hunk-header regex of `src/diff.rs`: on success returns the
four captures `(oldStart, oldCount?, newStart, newCount?)` as raw digit
runs; trailing bytes after the closing ` @@` are unconstrained. -/
def parseHunkHeader (line : RStr) :
    Option (RStr × Option RStr × RStr × Option RStr) :=
  match dropLit (bytesOfAscii "@@ -") line with
  | none => none
  | some r1 =>
    match takeDigitRun r1 with
    | none => none
    | some (old_start, r2) =>
      match takeOptCount r2 with
      | none => none
      | some (old_count, r3) =>
        match dropLit (bytesOfAscii " +") r3 with
        | none => none
        | some r4 =>
          match takeDigitRun r4 with
          | none => none
          | some (new_start, r5) =>
            match takeOptCount r5 with
            | none => none
            | some (new_count, r6) =>
              match dropLit (bytesOfAscii " @@") r6 with
              | none => none
              | some _ => some (old_start, old_count, new_start, new_count)

/-- `str::parse::<usize>` on a captured ASCII digit run: its value when it
fits in `usize`, `none` on overflow. -/
def parse_usize (ds : RStr) : Option ℕ :=
  if digitsToNat ds < U64 then some (digitsToNat ds) else none

/-- `parse_hunk_count` from `src/diff.rs`: a missing capture defaults to 1;
a captured numeral that fails to parse as `usize` (overflow) falls back to
0 via `unwrap_or(0)`. -/
def parse_hunk_count (value : Option RStr) : ℕ :=
  match value with
  | none => 1
  | some raw => (parse_usize raw).getD 0

/-- `FileLineHighlights` from `src/model.rs`. -/
structure FileLineHighlights where
  left_deleted_line_indexes : Finset ℕ
  right_added_line_indexes : Finset ℕ
  deriving DecidableEq

def create_empty_line_highlights : FileLineHighlights :=
  ⟨∅, ∅⟩

/-- `usize::saturating_add`. -/
def saturatingAdd (a b : ℕ) : ℕ :=
  min (a + b) (U64 - 1)

/-- The `for offset in 0..count { insert(start.saturating_add(offset)) }`
loops of `parse_line_highlights_from_patch`. -/
def insertRange (s : Finset ℕ) (start : ℕ) : ℕ → Finset ℕ
  | 0 => s
  | count + 1 => insert (saturatingAdd start count) (insertRange s start count)

/-- Split a byte string at every `'\n'` (byte 10); always non-empty. -/
def rustSplitNl : RStr → List RStr
  | [] => [[]]
  | 10 :: rest => [] :: rustSplitNl rest
  | b :: rest =>
    match rustSplitNl rest with
    | [] => [[b]]
    | h :: t => (b :: h) :: t

/-- Strip one trailing `'\r'` (byte 13). -/
def stripTrailingCr (line : RStr) : RStr :=
  if line.getLast? = some 13 then line.dropLast else line

/-- Rust's `str::lines()`: split at `'\n'`, drop the optional final empty
chunk, and strip a trailing `'\r'` from each line. -/
def rustLines (s : RStr) : List RStr :=
  let parts := rustSplitNl s
  let parts := if parts.getLast? = some [] then parts.dropLast else parts
  parts.map stripTrailingCr

/-- The loop body of `parse_line_highlights_from_patch`: a line that fails
the regex contributes nothing; for a matched header each side's start is
parsed as `usize` (overflow leaves it `None` and skips that side), each
count defaults to 1 when missing and falls back to 0 on parse overflow, and
the insertions use saturating subtraction on the start and saturating
addition on the offsets. -/
def applyHunkHeaderLine (highlights : FileLineHighlights) (line : RStr) :
    FileLineHighlights :=
  match parseHunkHeader line with
  | none => highlights
  | some (osRaw, ocRaw, nsRaw, ncRaw) =>
    let old_start := parse_usize osRaw
    let old_count := parse_hunk_count ocRaw
    let new_start := parse_usize nsRaw
    let new_count := parse_hunk_count ncRaw
    let highlights :=
      match old_start with
      | none => highlights
      | some start =>
        { highlights with
            left_deleted_line_indexes :=
              insertRange highlights.left_deleted_line_indexes (start - 1)
                old_count }
    match new_start with
    | none => highlights
    | some start =>
      { highlights with
          right_added_line_indexes :=
            insertRange highlights.right_added_line_indexes (start - 1)
              new_count }

/-- `parse_line_highlights_from_patch` from `src/diff.rs`. -/
def parse_line_highlights_from_patch (diff_output : RStr) :
    FileLineHighlights :=
  (rustLines diff_output).foldl applyHunkHeaderLine
    create_empty_line_highlights

/-- `build_hunk_start_lines` from `src/app.rs`: sort and de-duplicate the
union of the two highlight sets (a `Finset` is already de-duplicated), then
keep an index only if it is 0 or its predecessor is not a changed index. -/
def build_hunk_start_lines (file : DiffFileView) : List ℕ :=
  let changed := (file.left_deleted_line_indexes
    ∪ file.right_added_line_indexes).sort (· ≤ ·)
  changed.filter fun line =>
    decide (line = 0)
      || !decide ((line - 1) ∈ file.left_deleted_line_indexes
            ∪ file.right_added_line_indexes)

/-- Fixture: a file whose changed-index set is `{4,5,6} ∪ {9} = {4,5,6,9}`. -/
def fileHunkSample : DiffFileView :=
  { fileWithLeftWidth5 with
      left_deleted_line_indexes := {4, 5, 6}
      right_added_line_indexes := {9} }

/-- C5: the hunk-start list contains exactly the changed indexes that begin
a maximal run of consecutive changed indexes (index 0 qualifies if changed;
any changed index whose predecessor is not changed qualifies), and the
changed-index set `{4,5,6,9}` yields hunk starts `[4, 9]`. -/
theorem build_hunk_start_lines_exact (file : DiffFileView) :
    (∀ n : ℕ,
      n ∈ build_hunk_start_lines file
        ↔ n ∈ file.left_deleted_line_indexes ∪ file.right_added_line_indexes
          ∧ (n = 0 ∨ n - 1 ∉ file.left_deleted_line_indexes
              ∪ file.right_added_line_indexes))
    ∧ build_hunk_start_lines fileHunkSample = [4, 9] := by
  constructor
  · intro n
    simp [build_hunk_start_lines, List.mem_filter, Finset.mem_sort,
      Decidable.not_not]
  · have hu : fileHunkSample.left_deleted_line_indexes
        ∪ fileHunkSample.right_added_line_indexes
        = ({4, 5, 6, 9} : Finset ℕ) := by decide
    have htl : (({4, 5, 6, 9} : Finset ℕ)).toList.Perm [4, 5, 6, 9] := by
      refine (Finset.toList_insert (by decide)).trans (List.Perm.cons 4 ?_)
      refine (Finset.toList_insert (by decide)).trans (List.Perm.cons 5 ?_)
      refine (Finset.toList_insert (by decide)).trans (List.Perm.cons 6 ?_)
      rw [Finset.toList_singleton]
    have hsort : ({4, 5, 6, 9} : Finset ℕ).sort (· ≤ ·) = [4, 5, 6, 9] :=
      List.eq_of_perm_of_sorted
        ((Finset.sort_perm_toList _ _).trans htl)
        (Finset.sort_sorted _ _) (by decide)
    simp only [build_hunk_start_lines, hu, hsort]
    decide

/-! ## Line splitting and file views (`src/diff.rs`) -/

def MISSING_LEFT : RStr := bytesOfAscii "<file does not exist in base revision>"
def MISSING_RIGHT : RStr :=
  bytesOfAscii "<file does not exist in target revision>"
def BINARY_PLACEHOLDER : RStr :=
  bytesOfAscii "<binary file preview not available>"

/-- `is_binary_content` from `src/diff.rs`: a zero byte in the first
8192-byte sample. -/
def is_binary_content (content : RStr) : Bool :=
  (content.take (min content.length 8192)).contains 0

/-- Left-to-right non-overlapping `replace("\r\n", "\n")` at byte level. -/
def replaceCrlf : RStr → RStr
  | [] => []
  | 13 :: 10 :: rest => 10 :: replaceCrlf rest
  | b :: rest => b :: replaceCrlf rest

/-- `split_into_lines` from `src/diff.rs`: normalize CRLF, split at `'\n'`,
pop one trailing empty line when there are at least two lines, and fall back
to a single empty line when nothing remains. -/
def split_into_lines (content : RStr) : List RStr :=
  let normalized := replaceCrlf content
  if normalized.isEmpty then [[]]
  else
    let lines := rustSplitNl normalized
    let lines :=
      if 1 < lines.length ∧ lines.getLast? = some [] then lines.dropLast
      else lines
    if lines.isEmpty then [[]] else lines

/-- The `<unable to load file: {error}>` placeholder line. -/
def unableToLoadLine (error : RStr) : RStr :=
  bytesOfAscii "<unable to load file: " ++ error ++ bytesOfAscii ">"

/-- Outcome of the external read (`git show` or `fs::read`) backing
`read_lines_at_revision` / `read_lines_at_working_tree`: the raw bytes on
success, or the error message on failure. -/
inductive ReadResult where
  | fileBytes (bytes : RStr)
  | readFailure (message : RStr)

/-- The pure tail of `read_lines_at_revision` / `read_lines_at_working_tree`
after the external read: binary check, line split, or error placeholder. -/
def read_lines (result : ReadResult) : List RStr :=
  match result with
  | .fileBytes buffer =>
      if is_binary_content buffer then [BINARY_PLACEHOLDER]
      else split_into_lines buffer
  | .readFailure message => [unableToLoadLine message]

def create_range_line_indexes (line_count : ℕ) : Finset ℕ :=
  Finset.range line_count

/-- `get_line_highlights_for_descriptor` from `src/diff.rs`, with the
`git diff` invocation abstracted as its outcome `diffOutcome` (`none` models
a failed `run_git_text`). -/
def get_line_highlights_for_descriptor (descriptor : DiffFileDescriptor)
    (diffOutcome : Option RStr) (left_line_count right_line_count : ℕ) :
    FileLineHighlights :=
  if descriptor.base_source = .missing then
    { left_deleted_line_indexes := ∅
      right_added_line_indexes := create_range_line_indexes right_line_count }
  else if descriptor.head_source = .missing then
    { left_deleted_line_indexes := create_range_line_indexes left_line_count
      right_added_line_indexes := ∅ }
  else
    match descriptor.base_path, descriptor.head_path with
    | none, _ => create_empty_line_highlights
    | some _, none => create_empty_line_highlights
    | some _, some _ =>
      match diffOutcome with
      | none => create_empty_line_highlights
      | some diff_output => parse_line_highlights_from_patch diff_output

/-- A UTF-8 continuation byte (`10xxxxxx`); `str::chars().count()` counts
exactly the non-continuation bytes of a valid UTF-8 string. -/
def isUtf8ContinuationByte (b : ℕ) : Bool :=
  128 ≤ b && b < 192

/-- `normalized_char_count` from `src/text.rs`: `value.chars().count()`. -/
def normalized_char_count (value : RStr) : ℕ :=
  (value.filter fun b => !isUtf8ContinuationByte b).length

/-- `replace('\t', "  ")` at byte level. -/
def replaceTabBytes (value : RStr) : RStr :=
  value.flatMap fun b => if b = 9 then [32, 32] else [b]

/-- `normalize_content` from `src/text.rs`: expand tabs to two spaces, then
drop carriage returns. -/
def normalize_content (value : RStr) : RStr :=
  (replaceTabBytes value).filter fun b => !(b == 13)

/-- `get_max_normalized_line_length` from `src/text.rs`:
`.map(...).max().unwrap_or(0)`. -/
def get_max_normalized_line_length (lines : List RStr) : ℕ :=
  (lines.map fun line => normalized_char_count (normalize_content line)).foldr
    max 0

/-- One iteration of `build_file_views` from `src/diff.rs`, with the
external effects abstracted: `baseRead`/`headRead` are the outcomes of the
git/filesystem reads, `diffOutcome` the `git diff` output, and `detect` the
syntect-backed `detect_syntax_name`. -/
def build_file_view (detect : Option RStr → List RStr → Option RStr)
    (descriptor : DiffFileDescriptor) (baseRead headRead : ReadResult)
    (diffOutcome : Option RStr) : DiffFileView :=
  let left_lines := match descriptor.base_source with
    | .missing => [MISSING_LEFT]
    | .workingTree => match descriptor.base_path with
      | some _ => read_lines baseRead
      | none => [MISSING_LEFT]
    | .commit => match descriptor.base_path with
      | some _ => read_lines baseRead
      | none => [MISSING_LEFT]
  let right_lines := match descriptor.head_source with
    | .missing => [MISSING_RIGHT]
    | .workingTree => match descriptor.head_path with
      | some _ => read_lines headRead
      | none => [MISSING_RIGHT]
    | .commit => match descriptor.head_path with
      | some _ => read_lines headRead
      | none => [MISSING_RIGHT]
  let line_highlights := get_line_highlights_for_descriptor descriptor
    diffOutcome left_lines.length right_lines.length
  { descriptor := descriptor
    review_key := compute_review_key descriptor left_lines right_lines
    left_language := detect descriptor.base_path left_lines
    right_language := detect descriptor.head_path right_lines
    left_deleted_line_indexes := line_highlights.left_deleted_line_indexes
    right_added_line_indexes := line_highlights.right_added_line_indexes
    left_max_content_length := get_max_normalized_line_length left_lines
    right_max_content_length := get_max_normalized_line_length right_lines
    left_lines := left_lines
    right_lines := right_lines }

/-- `build_file_views` from `src/diff.rs` over descriptors paired with the
outcomes of their external reads. -/
def build_file_views (detect : Option RStr → List RStr → Option RStr)
    (inputs : List (DiffFileDescriptor × ReadResult × ReadResult × Option RStr)) :
    List DiffFileView :=
  inputs.map fun input =>
    build_file_view detect input.1 input.2.1 input.2.2.1 input.2.2.2

theorem split_into_lines_ne_nil (content : RStr) :
    split_into_lines content ≠ [] := by
  simp only [split_into_lines]
  split
  · simp
  · split <;> split <;> simp_all

theorem read_lines_ne_nil (result : ReadResult) : read_lines result ≠ [] := by
  cases result with
  | fileBytes buffer =>
    rw [read_lines]
    split
    · simp
    · exact split_into_lines_ne_nil buffer
  | readFailure message => simp [read_lines]

theorem build_file_view_left_lines
    (detect : Option RStr → List RStr → Option RStr)
    (descriptor : DiffFileDescriptor) (baseRead headRead : ReadResult)
    (diffOutcome : Option RStr) :
    (build_file_view detect descriptor baseRead headRead
        diffOutcome).left_lines = [MISSING_LEFT]
    ∨ (build_file_view detect descriptor baseRead headRead
        diffOutcome).left_lines = read_lines baseRead := by
  rcases descriptor with ⟨rs, dp, bp, hp, bs, hs⟩
  cases bs <;> cases bp <;> simp [build_file_view]

theorem build_file_view_right_lines
    (detect : Option RStr → List RStr → Option RStr)
    (descriptor : DiffFileDescriptor) (baseRead headRead : ReadResult)
    (diffOutcome : Option RStr) :
    (build_file_view detect descriptor baseRead headRead
        diffOutcome).right_lines = [MISSING_RIGHT]
    ∨ (build_file_view detect descriptor baseRead headRead
        diffOutcome).right_lines = read_lines headRead := by
  rcases descriptor with ⟨rs, dp, bp, hp, bs, hs⟩
  cases hs <;> cases hp <;> simp [build_file_view]

/-- C10: splitting any content (the empty string included) yields at least
one line, an unreadable side yields exactly one placeholder line, and every
file view built at startup has at least one line in each pane, hence
`maxLineCount = max(leftLineCount, rightLineCount) ≥ 1`. -/
theorem build_file_views_lines_nonempty :
    (∀ content : RStr, 0 < (split_into_lines content).length)
    ∧ (∀ message : RStr,
        read_lines (.readFailure message) = [unableToLoadLine message])
    ∧ (∀ (detect : Option RStr → List RStr → Option RStr)
        (inputs :
          List (DiffFileDescriptor × ReadResult × ReadResult × Option RStr)),
        ∀ view ∈ build_file_views detect inputs,
          0 < view.left_lines.length ∧ 0 < view.right_lines.length
            ∧ 1 ≤ max view.left_lines.length view.right_lines.length) := by
  refine ⟨?_, fun message => rfl, ?_⟩
  · intro content
    exact List.length_pos.mpr (split_into_lines_ne_nil content)
  · intro detect inputs view hview
    obtain ⟨input, hin, rfl⟩ := List.mem_map.mp hview
    have hleft : 0 < (build_file_view detect input.1 input.2.1 input.2.2.1
        input.2.2.2).left_lines.length := by
      rcases build_file_view_left_lines detect input.1 input.2.1 input.2.2.1
        input.2.2.2 with h | h
      · rw [h]; simp
      · rw [h]
        exact List.length_pos.mpr (read_lines_ne_nil _)
    have hright : 0 < (build_file_view detect input.1 input.2.1 input.2.2.1
        input.2.2.2).right_lines.length := by
      rcases build_file_view_right_lines detect input.1 input.2.1 input.2.2.1
        input.2.2.2 with h | h
      · rw [h]; simp
      · rw [h]
        exact List.length_pos.mpr (read_lines_ne_nil _)
    exact ⟨hleft, hright, le_max_of_le_left hleft⟩

/-- Trivial syntax-detection oracle used in fixtures. -/
def detectNone : Option RStr → List RStr → Option RStr := fun _ _ => none

/-- C10 (witness): the view built for the sample descriptor from empty file
contents has at least one line in each pane. -/
theorem build_file_views_lines_nonempty_witness :
    (build_file_view detectNone sampleDescriptor (.fileBytes [])
        (.fileBytes []) none)
      ∈ build_file_views detectNone
          [(sampleDescriptor, .fileBytes [], .fileBytes [], none)]
    ∧ (0 < (build_file_view detectNone sampleDescriptor (.fileBytes [])
          (.fileBytes []) none).left_lines.length
      ∧ 0 < (build_file_view detectNone sampleDescriptor (.fileBytes [])
          (.fileBytes []) none).right_lines.length
      ∧ 1 ≤ max (build_file_view detectNone sampleDescriptor (.fileBytes [])
            (.fileBytes []) none).left_lines.length
          (build_file_view detectNone sampleDescriptor (.fileBytes [])
            (.fileBytes []) none).right_lines.length) := by
  have hmem : (build_file_view detectNone sampleDescriptor (.fileBytes [])
      (.fileBytes []) none)
      ∈ build_file_views detectNone
          [(sampleDescriptor, .fileBytes [], .fileBytes [], none)] :=
    List.mem_singleton.mpr rfl
  exact ⟨hmem, build_file_views_lines_nonempty.2.2 detectNone _ _ hmem⟩
